import Mathlib

/-!
Shallow embedding of the Simon memory game firmware (src/simon.ino).

Embedding conventions:
* Hardware I/O is replaced by explicit data: raw pin levels, poll results and
  timestamps are inputs; LED/tone requests are collected as output lists.
* Arduino `byte` is modelled as `Nat` with an explicit `% 256` at the only
  site where wrap-around could matter (the `currentLevel++` in `levelUp`);
  `unsigned long` time values are `Nat` (time is monotone in any real run, so
  the `millis() - t0` idiom coincides with truncated `Nat` subtraction there).
* The fixed 100-byte array `gameSequence` is a `List Nat` of length 100.
  Indexing is via `List.get?`, so the C out-of-bounds read (undefined
  behaviour) shows up as the `none` branch; a step of the engine that would
  perform such a read returns `none` (the machine is stuck at the UB point).
* The busy wait loops of `readPlayerSequence` consume environment-provided
  poll traces: for each step, a start time (the `millis()` value when the
  step begins) and a list of poll iterations, each carrying the sampled
  `millis()` value and the first button (if any) whose `readButton` call
  reported a press during that iteration.  An exhausted trace means no
  further presses arrive, i.e. a timeout.
-/

namespace Simon

/-- MAX_LEVEL from the source: capacity of the gameSequence array. -/
def MAX_LEVEL : Nat := 100

/-- INITIAL_SPEED from the source (milliseconds). -/
def INITIAL_SPEED : Nat := 1000

/-- SPEED_DECREASE from the source (milliseconds per level). -/
def SPEED_DECREASE : Nat := 50

/-- MIN_SPEED from the source (milliseconds). -/
def MIN_SPEED : Nat := 250

/-- Debounce interval (the source's debounceDelay, 50 ms). -/
def debounceDelay : Nat := 50

/-- Logic level LOW (buttons are wired active-low with pull-ups). -/
def LOW : Bool := false

/-- Logic level HIGH. -/
def HIGH : Bool := true

/-- Per-channel debounce state: the source's currentButtonState[b],
lastButtonState[b] and lastDebounceTime[b] entries for one button. -/
structure ButtonState where
  currentButtonState : Bool
  lastButtonState : Bool
  lastDebounceTime : Nat
deriving DecidableEq, Repr

/-- Translation of readButton (src/simon.ino lines 200-219) for one channel.
Inputs: the debounce state, the raw digitalRead sample, and the millis()
value for this call (the two millis() calls inside the C function are
microseconds apart and are modelled as one sample).  Returns the updated
state and the pressed flag. -/
def readButton (st : ButtonState) (reading : Bool) (now : Nat) :
    ButtonState × Bool :=
  let lastDebounceTime :=
    if reading ≠ st.lastButtonState then now else st.lastDebounceTime
  let cp :
      Bool × Bool :=
    if debounceDelay < now - lastDebounceTime then
      if reading ≠ st.currentButtonState then
        (reading, reading = LOW)
      else
        (st.currentButtonState, false)
    else
      (st.currentButtonState, false)
  (⟨cp.1, reading, lastDebounceTime⟩, cp.2)

/-- Fold readButton over a trace of (millis, raw level) samples for one
channel, counting how many calls report a press. -/
def runButton : ButtonState → List (Nat × Bool) → ButtonState × Nat
  | st, [] => (st, 0)
  | st, (now, r) :: rest =>
      let res := readButton st r now
      let tail := runButton res.1 rest
      (tail.1, (if res.2 then 1 else 0) + tail.2)

/-- A sampled raw trace oscillates faster than the debounce interval:
whenever a sample repeats the previous stable reading, no more than
debounceDelay ms have elapsed since the last observed change (tl is the
timestamp of the last observed change, last the previous sample). -/
def oscillating : Bool → Nat → List (Nat × Bool) → Bool
  | _, _, [] => true
  | last, tl, (t, r) :: rest =>
      (decide (r ≠ last) || decide (t - tl ≤ debounceDelay)) &&
        oscillating r (if r = last then tl else t) rest

/-- The mutable game globals of the sketch, plus the EEPROM high-score
byte.  gameSequence is the fixed 100-byte array (length invariant 100);
resetGame deliberately does not clear it, as in the source. -/
structure GameState where
  gameSequence : List Nat
  currentLevel : Nat
  highScore : Nat
  currentSpeed : Nat
  gameOver : Bool
  eeprom : Nat
deriving DecidableEq, Repr

/-- State after setup() (src/simon.ino lines 44-66): globals at their
initialisers, high score read from the EEPROM byte hs. -/
def initState (hs : Nat) : GameState :=
  { gameSequence := List.replicate MAX_LEVEL 0
    currentLevel := 0
    highScore := hs
    currentSpeed := INITIAL_SPEED
    gameOver := false
    eeprom := hs }

/-- Translation of addNewStep (lines 120-126).  The random(4) draw is the
parameter sym.  Writes gameSequence[currentLevel] only when
currentLevel < MAX_LEVEL; otherwise the call does nothing. -/
def addNewStep (s : GameState) (sym : Fin 4) : GameState :=
  if s.currentLevel < MAX_LEVEL then
    { s with gameSequence := s.gameSequence.set s.currentLevel sym.val }
  else s

/-- One presentation request: (symbol, on-duration, off-duration). -/
abbrev Request := Nat × Nat × Nat

/-- Index loop of displaySequence: shows rem steps starting at index i,
reading gameSequence via get?.  An out-of-bounds read (the C undefined
behaviour) yields none. -/
def displayLoop (seq : List Nat) (speed : Nat) : Nat → Nat → Option (List Request)
  | _, 0 => some []
  | i, rem + 1 =>
      match seq[i]? with
      | none => none
      | some sym =>
          match displayLoop seq speed (i + 1) rem with
          | none => none
          | some rest => some ((sym, speed, speed / 2) :: rest)

/-- Translation of displaySequence (lines 128-151): for i = 0..currentLevel
request (gameSequence[i], currentSpeed, currentSpeed/2); the value is the
list of issued requests, none if an out-of-bounds read occurs. -/
def displaySequence (s : GameState) : Option (List Request) :=
  displayLoop s.gameSequence s.currentSpeed 0 (s.currentLevel + 1)

/-- The wait loop of one step of readPlayerSequence (lines 161-181): start
is inputStartTime; each trace entry is one while-iteration carrying the
millis() sample and the first button whose readButton call reported a
press during that iteration (none if no button pressed).  The loop checks
the 3000 ms deadline before polling; result is the accepted press, or none
on timeout. -/
def waitForInput (start : Nat) : List (Nat × Option (Fin 4)) → Option (Fin 4)
  | [] => none
  | (t, r) :: rest =>
      if t - start < 3000 then
        match r with
        | some b => some b
        | none => waitForInput start rest
      else none

/-- Step loop of readPlayerSequence: rem steps remaining, current step
index step.  Timeout is checked before the sequence comparison, exactly as
in the source (lines 184-193); the comparison itself reads
gameSequence[step], so an out-of-bounds read there yields none. -/
def readLoop (seq : List Nat) (starts : Nat → Nat)
    (polls : Nat → List (Nat × Option (Fin 4))) : Nat → Nat → Option Bool
  | _, 0 => some true
  | step, rem + 1 =>
      match waitForInput (starts step) (polls step) with
      | none => some false
      | some b =>
          match seq[step]? with
          | none => none
          | some g => if b.val = g then readLoop seq starts polls (step + 1) rem
                      else some false

/-- Translation of readPlayerSequence (lines 153-198): steps
0..currentLevel, per-step start times and poll traces provided by the
environment. -/
def readPlayerSequence (s : GameState) (starts : Nat → Nat)
    (polls : Nat → List (Nat × Option (Fin 4))) : Option Bool :=
  readLoop s.gameSequence starts polls 0 (s.currentLevel + 1)

/-- The speed update formula of levelUp (line 264), computed in C int
arithmetic (no overflow for any byte level): max(MIN_SPEED,
INITIAL_SPEED - lvl * SPEED_DECREASE). -/
def levelUpSpeed (lvl : Nat) : Nat :=
  (max (MIN_SPEED : Int) ((INITIAL_SPEED : Int) - lvl * SPEED_DECREASE)).toNat

/-- Translation of levelUp (lines 262-268): currentLevel++ on a byte
(hence % 256), then the speed update using the new level. -/
def levelUp (s : GameState) : GameState :=
  let lvl := (s.currentLevel + 1) % 256
  { s with currentLevel := lvl, currentSpeed := levelUpSpeed lvl }

/-- Translation of handleGameOver (lines 221-231, score part): set the
gameOver flag; if currentLevel > highScore, update highScore and write it
to EEPROM.  The failure animation and score display do not touch game
state. -/
def handleGameOver (s : GameState) : GameState :=
  if s.highScore < s.currentLevel then
    { s with gameOver := true, highScore := s.currentLevel,
             eeprom := s.currentLevel }
  else { s with gameOver := true }

/-- Translation of resetGame (lines 270-277): level and speed reset, flag
cleared.  gameSequence and highScore are deliberately untouched. -/
def resetGame (s : GameState) : GameState :=
  { s with currentLevel := 0, currentSpeed := INITIAL_SPEED, gameOver := false }

/-- Environment inputs consumed by one iteration of loop(): the random(4)
draw of addNewStep, the per-step start times and poll traces of
readPlayerSequence, and whether checkAnyButton reports a press (used only
in the gameOver branch). -/
structure RoundInput where
  newSymbol : Fin 4
  starts : Nat → Nat
  polls : Nat → List (Nat × Option (Fin 4))
  anyPressed : Bool

/-- Translation of loop() (lines 68-88): one iteration of the Arduino main
loop.  Returns none when the iteration performs an out-of-bounds
gameSequence read (C undefined behaviour: the model is stuck there). -/
def loopStep (s : GameState) (inp : RoundInput) : Option GameState :=
  if s.gameOver then
    some (if inp.anyPressed then resetGame s else s)
  else
    let s1 := addNewStep s inp.newSymbol
    match displaySequence s1 with
    | none => none
    | some _ =>
        match readPlayerSequence s1 inp.starts inp.polls with
        | none => none
        | some true => some (levelUp s1)
        | some false => some (handleGameOver s1)

/-- States reachable from power-up (any EEPROM byte) by iterating loop(). -/
inductive Reachable : GameState → Prop
  | init (hs : Nat) (h : hs < 256) : Reachable (initState hs)
  | step (s t : GameState) (inp : RoundInput) :
      Reachable s → loopStep s inp = some t → Reachable t

/-- The logical sequence content between rounds: the prefix of the array
holding the symbols of the completed rounds. -/
def logicalSeq (s : GameState) : List Nat :=
  s.gameSequence.take s.currentLevel

/-- Observable output of one loop() iteration: the presentation requests
issued by displaySequence, the verdict of readPlayerSequence, and the
value written to EEPROM by handleGameOver (none when nothing is written).
In the gameOver branch nothing observable happens. -/
def stepObs (s : GameState) (inp : RoundInput) :
    Option (List Request) × Option Bool × Option Nat :=
  if s.gameOver then (none, none, none)
  else
    let s1 := addNewStep s inp.newSymbol
    (displaySequence s1, readPlayerSequence s1 inp.starts inp.polls,
      match readPlayerSequence s1 inp.starts inp.polls with
      | some false =>
          if s1.highScore < s1.currentLevel then some s1.currentLevel else none
      | _ => none)

/-- Run loop() over a list of per-iteration inputs, collecting the
observations; stops with none when an iteration hits undefined behaviour. -/
def runGame : GameState → List RoundInput →
    List (Option (List Request) × Option Bool × Option Nat) × Option GameState
  | s, [] => ([], some s)
  | s, inp :: rest =>
      match loopStep s inp with
      | none => ([stepObs s inp], none)
      | some t =>
          let r := runGame t rest
          (stepObs s inp :: r.1, r.2)

/-- A fixed winning environment: random draw 0, every step answered by an
immediate press of button 0. -/
def winInput : RoundInput :=
  { newSymbol := 0
    starts := fun _ => 0
    polls := fun _ => [(0, some 0)]
    anyPressed := false }

/-- The state after n consecutive rounds won with winInput from a fresh
game with EEPROM byte 0. -/
def winState (n : Nat) : GameState :=
  { gameSequence := List.replicate MAX_LEVEL 0
    currentLevel := n
    highScore := 0
    currentSpeed := levelUpSpeed n
    gameOver := false
    eeprom := 0 }

/-- Two states agreeing on every field except the gameSequence array. -/
def AgreeExceptSeq (u v : GameState) : Prop :=
  u.currentLevel = v.currentLevel ∧ u.highScore = v.highScore ∧
  u.currentSpeed = v.currentSpeed ∧ u.gameOver = v.gameOver ∧
  u.eeprom = v.eeprom

/-- s is followed by n rounds that are all won (readPlayerSequence yields
true, so loop() takes the levelUp branch). -/
inductive WinsFrom : GameState → Nat → GameState → Prop
  | refl (s : GameState) : WinsFrom s 0 s
  | step (s : GameState) (n : Nat) (t u : GameState) (inp : RoundInput) :
      WinsFrom s n t →
      readPlayerSequence (addNewStep t inp.newSymbol) inp.starts inp.polls =
        some true →
      loopStep t inp = some u → WinsFrom s (n + 1) u

/-! Helper lemmas about list indexing. -/

theorem get?_set_self (l : List Nat) (i a : Nat) (h : i < l.length) :
    (l.set i a)[i]? = some a := by
  simp [List.getElem?_set_self', List.getElem?_eq_getElem, h]

theorem get?_set_ne (l : List Nat) (i j a : Nat) (h : i ≠ j) :
    (l.set i a)[j]? = l[j]? := by
  simp [List.getElem?_set_ne h]

theorem get?_replicate (n i a : Nat) (h : i < n) :
    (List.replicate n a)[i]? = some a := by
  simp [List.getElem?_eq_getElem, h]

theorem lt_length_of_get?_isSome (l : List Nat) (i : Nat)
    (h : l[i]?.isSome) : i < l.length := by
  by_contra hc
  rw [List.getElem?_eq_none_iff.mpr (Nat.le_of_not_lt hc)] at h
  simp at h

theorem set_replicate_self (n i a : Nat) :
    (List.replicate n a).set i a = List.replicate n a := by
  induction n generalizing i with
  | zero => simp
  | succ m ih =>
      cases i with
      | zero => simp [List.replicate_succ, List.set]
      | succ k => simp [List.replicate_succ, List.set, ih k]

/-! Helper lemmas about the presentation loop. -/

theorem displayLoop_spec (seq : List Nat) (sp : Nat) :
    ∀ rem i, (∀ j, i ≤ j → j < i + rem → (seq[j]?).isSome) →
      ∃ l, displayLoop seq sp i rem = some l ∧ l.length = rem ∧
        ∀ k, k < rem → ∃ v, seq[i + k]? = some v ∧
          l[k]? = some (v, sp, sp / 2) := by
  intro rem
  induction rem with
  | zero => exact fun i _ => ⟨[], rfl, rfl, fun k hk => absurd hk (Nat.not_lt_zero k)⟩
  | succ m ih =>
      intro i hin
      have hi : (seq[i]?).isSome := hin i (Nat.le_refl i) (by omega)
      obtain ⟨v, hv⟩ := Option.isSome_iff_exists.mp hi
      obtain ⟨l, hl, hlen, hent⟩ := ih (i + 1) (fun j h1 h2 => hin j (by omega) (by omega))
      refine ⟨(v, sp, sp / 2) :: l, ?_, by simp [hlen], ?_⟩
      · simp only [displayLoop, hv, hl]
      · intro k hk
        cases k with
        | zero => exact ⟨v, by simpa using hv, by simp⟩
        | succ k' =>
            obtain ⟨w, hw1, hw2⟩ := hent k' (by omega)
            exact ⟨w, by simpa [Nat.add_assoc, Nat.add_comm 1 k'] using hw1, by simpa using hw2⟩

theorem displayLoop_bounds (seq : List Nat) (sp : Nat) :
    ∀ rem i l, displayLoop seq sp i rem = some l →
      ∀ j, i ≤ j → j < i + rem → (seq[j]?).isSome := by
  intro rem
  induction rem with
  | zero => intro i l _ j h1 h2; omega
  | succ m ih =>
      intro i l hd j h1 h2
      rcases hg : seq[i]? with _ | v
      · simp [displayLoop, hg] at hd
      · rcases Nat.eq_or_lt_of_le h1 with rfl | hlt
        · simp [hg]
        · simp only [displayLoop, hg] at hd
          rcases hrest : displayLoop seq sp (i + 1) m with _ | l'
          · rw [hrest] at hd; simp at hd
          · exact ih (i + 1) l' hrest j hlt (by omega)

theorem displayLoop_congr (seq1 seq2 : List Nat) (sp : Nat) :
    ∀ rem i, (∀ j, i ≤ j → j < i + rem → seq1[j]? = seq2[j]?) →
      displayLoop seq1 sp i rem = displayLoop seq2 sp i rem := by
  intro rem
  induction rem with
  | zero => intro i _; rfl
  | succ m ih =>
      intro i h
      have hi : seq1[i]? = seq2[i]? := h i (Nat.le_refl i) (by omega)
      have ht := ih (i + 1) (fun j h1 h2 => h j (by omega) (by omega))
      simp only [displayLoop, hi, ht]

/-- Whether a step of the player-input loop matches the stored sequence:
an accepted press arrives whose button equals the stored symbol. -/
def StepMatch (seq : List Nat) (starts : Nat → Nat)
    (polls : Nat → List (Nat × Option (Fin 4))) (k : Nat) : Prop :=
  ∃ b : Fin 4, waitForInput (starts k) (polls k) = some b ∧
    seq[k]? = some b.val

/-- Whether a step of the player-input loop fails: timeout, or an accepted
press whose button differs from the stored symbol. -/
def StepFail (seq : List Nat) (starts : Nat → Nat)
    (polls : Nat → List (Nat × Option (Fin 4))) (k : Nat) : Prop :=
  waitForInput (starts k) (polls k) = none ∨
    ∃ b : Fin 4, ∃ g, waitForInput (starts k) (polls k) = some b ∧
      seq[k]? = some g ∧ b.val ≠ g

theorem readLoop_all_match (seq : List Nat) (starts : Nat → Nat)
    (polls : Nat → List (Nat × Option (Fin 4))) :
    ∀ rem i, (∀ k, i ≤ k → k < i + rem → StepMatch seq starts polls k) →
      readLoop seq starts polls i rem = some true := by
  intro rem
  induction rem with
  | zero => intro i _; rfl
  | succ m ih =>
      intro i h
      obtain ⟨b, hb, hg⟩ := h i (Nat.le_refl i) (by omega)
      have ht := ih (i + 1) (fun k h1 h2 => h k (by omega) (by omega))
      simp [readLoop, hb, hg, ht]

theorem readLoop_fail (seq : List Nat) (starts : Nat → Nat)
    (polls : Nat → List (Nat × Option (Fin 4))) :
    ∀ rem i j, i ≤ j → j < i + rem →
      (∀ k, i ≤ k → k < j → StepMatch seq starts polls k) →
      StepFail seq starts polls j →
      readLoop seq starts polls i rem = some false := by
  intro rem
  induction rem with
  | zero => intro i j h1 h2; omega
  | succ m ih =>
      intro i j h1 h2 hpre hfail
      rcases Nat.eq_or_lt_of_le h1 with rfl | hlt
      · rcases hfail with hto | ⟨b, g, hb, hg, hne⟩
        · simp only [readLoop, hto]
        · simp only [readLoop, hb, hg, if_neg hne]
      · obtain ⟨b, hb, hg⟩ := hpre i (Nat.le_refl i) hlt
        have ht := ih (i + 1) j hlt (by omega)
          (fun k hk1 hk2 => hpre k (by omega) hk2) hfail
        simp [readLoop, hb, hg, ht]

theorem readLoop_congr (seq1 seq2 : List Nat) (starts : Nat → Nat)
    (polls : Nat → List (Nat × Option (Fin 4))) :
    ∀ rem i, (∀ j, i ≤ j → j < i + rem → seq1[j]? = seq2[j]?) →
      readLoop seq1 starts polls i rem = readLoop seq2 starts polls i rem := by
  intro rem
  induction rem with
  | zero => intro i _; rfl
  | succ m ih =>
      intro i h
      have hi : seq1[i]? = seq2[i]? := h i (Nat.le_refl i) (by omega)
      have ht := ih (i + 1) (fun j h1 h2 => h j (by omega) (by omega))
      simp only [readLoop, hi, ht]

/-! Field bookkeeping for the state operations. -/

@[simp] theorem addNewStep_currentLevel (s : GameState) (sym : Fin 4) :
    (addNewStep s sym).currentLevel = s.currentLevel := by
  unfold addNewStep; split <;> rfl

@[simp] theorem addNewStep_highScore (s : GameState) (sym : Fin 4) :
    (addNewStep s sym).highScore = s.highScore := by
  unfold addNewStep; split <;> rfl

@[simp] theorem addNewStep_currentSpeed (s : GameState) (sym : Fin 4) :
    (addNewStep s sym).currentSpeed = s.currentSpeed := by
  unfold addNewStep; split <;> rfl

@[simp] theorem addNewStep_gameOver (s : GameState) (sym : Fin 4) :
    (addNewStep s sym).gameOver = s.gameOver := by
  unfold addNewStep; split <;> rfl

@[simp] theorem addNewStep_eeprom (s : GameState) (sym : Fin 4) :
    (addNewStep s sym).eeprom = s.eeprom := by
  unfold addNewStep; split <;> rfl

@[simp] theorem addNewStep_length (s : GameState) (sym : Fin 4) :
    (addNewStep s sym).gameSequence.length = s.gameSequence.length := by
  unfold addNewStep; split <;> simp

@[simp] theorem handleGameOver_gameOver (s : GameState) :
    (handleGameOver s).gameOver = true := by
  unfold handleGameOver; split <;> rfl

@[simp] theorem handleGameOver_currentLevel (s : GameState) :
    (handleGameOver s).currentLevel = s.currentLevel := by
  unfold handleGameOver; split <;> rfl

@[simp] theorem handleGameOver_currentSpeed (s : GameState) :
    (handleGameOver s).currentSpeed = s.currentSpeed := by
  unfold handleGameOver; split <;> rfl

@[simp] theorem handleGameOver_gameSequence (s : GameState) :
    (handleGameOver s).gameSequence = s.gameSequence := by
  unfold handleGameOver; split <;> rfl

theorem handleGameOver_highScore (s : GameState) :
    (handleGameOver s).highScore = max s.highScore s.currentLevel := by
  unfold handleGameOver; split <;> simp <;> omega

theorem handleGameOver_eeprom (s : GameState) :
    (handleGameOver s).eeprom =
      if s.highScore < s.currentLevel then s.currentLevel else s.eeprom := by
  unfold handleGameOver; split <;> simp_all

/-! The speed formula. -/

theorem levelUpSpeed_bounds (n : Nat) :
    MIN_SPEED ≤ levelUpSpeed n ∧ levelUpSpeed n ≤ INITIAL_SPEED := by
  unfold levelUpSpeed MIN_SPEED INITIAL_SPEED SPEED_DECREASE
  omega

theorem levelUpSpeed_antitone {a b : Nat} (h : a ≤ b) :
    levelUpSpeed b ≤ levelUpSpeed a := by
  unfold levelUpSpeed MIN_SPEED INITIAL_SPEED SPEED_DECREASE
  omega

/-! Characterisations of one loop() iteration. -/

theorem displaySequence_level_lt (s : GameState) (l : List Request)
    (h : displaySequence s = some l) :
    s.currentLevel < s.gameSequence.length :=
  lt_length_of_get?_isSome _ _
    (displayLoop_bounds s.gameSequence s.currentSpeed (s.currentLevel + 1) 0 l h
      s.currentLevel (Nat.zero_le _) (by omega))

theorem loopStep_gameOver (s : GameState) (inp : RoundInput)
    (h : s.gameOver = true) :
    loopStep s inp = some (if inp.anyPressed then resetGame s else s) := by
  simp [loopStep, h]

theorem loopStep_win (s : GameState) (inp : RoundInput)
    (hgo : s.gameOver = false)
    (hdisp : ∃ l, displaySequence (addNewStep s inp.newSymbol) = some l)
    (hread : readPlayerSequence (addNewStep s inp.newSymbol) inp.starts
      inp.polls = some true) :
    loopStep s inp = some (levelUp (addNewStep s inp.newSymbol)) := by
  obtain ⟨l, hl⟩ := hdisp
  simp [loopStep, hgo, hl, hread]

theorem loopStep_lose (s : GameState) (inp : RoundInput)
    (hgo : s.gameOver = false)
    (hdisp : ∃ l, displaySequence (addNewStep s inp.newSymbol) = some l)
    (hread : readPlayerSequence (addNewStep s inp.newSymbol) inp.starts
      inp.polls = some false) :
    loopStep s inp = some (handleGameOver (addNewStep s inp.newSymbol)) := by
  obtain ⟨l, hl⟩ := hdisp
  simp [loopStep, hgo, hl, hread]

/-- Basic state invariant: fixed array size, level at most MAX_LEVEL, speed
within [MIN_SPEED, INITIAL_SPEED]. -/
def StateInv (s : GameState) : Prop :=
  s.gameSequence.length = MAX_LEVEL ∧ s.currentLevel ≤ MAX_LEVEL ∧
  MIN_SPEED ≤ s.currentSpeed ∧ s.currentSpeed ≤ INITIAL_SPEED

theorem stateInv_init (hs : Nat) : StateInv (initState hs) := by
  refine ⟨by simp [initState], by simp [initState], ?_, ?_⟩ <;>
    simp [initState, MIN_SPEED, INITIAL_SPEED]

theorem stateInv_step (s t : GameState) (inp : RoundInput)
    (hs : StateInv s) (hstep : loopStep s inp = some t) : StateInv t := by
  obtain ⟨hlen, hlev, hsp1, hsp2⟩ := hs
  rcases hgo : s.gameOver with _ | _
  · rcases hd : displaySequence (addNewStep s inp.newSymbol) with _ | l
    · simp [loopStep, hgo, hd] at hstep
    · have hlt : s.currentLevel < MAX_LEVEL := by
        have := displaySequence_level_lt _ _ hd
        simpa [hlen] using this
      rcases hr : readPlayerSequence (addNewStep s inp.newSymbol) inp.starts
          inp.polls with _ | b
      · simp [loopStep, hgo, hd, hr] at hstep
      · rcases b with _ | _
        · rw [loopStep_lose s inp hgo ⟨l, hd⟩ hr] at hstep
          obtain rfl := Option.some.inj hstep
          exact ⟨by simp [hlen], by simpa using hlev,
            by simpa using hsp1, by simpa using hsp2⟩
        · rw [loopStep_win s inp hgo ⟨l, hd⟩ hr] at hstep
          obtain rfl := Option.some.inj hstep
          have hm : (s.currentLevel + 1) % 256 = s.currentLevel + 1 :=
            Nat.mod_eq_of_lt (by unfold MAX_LEVEL at hlt; omega)
          refine ⟨by simp [levelUp, hlen], ?_, ?_, ?_⟩
          · simp only [levelUp, addNewStep_currentLevel, hm]; omega
          · simpa [levelUp] using (levelUpSpeed_bounds _).1
          · simpa [levelUp] using (levelUpSpeed_bounds _).2
  · rw [loopStep_gameOver s inp hgo] at hstep
    obtain rfl := Option.some.inj hstep
    rcases inp.anyPressed with _ | _
    · exact ⟨by simpa using hlen, by simpa using hlev,
        by simpa using hsp1, by simpa using hsp2⟩
    · refine ⟨by simp [resetGame, hlen], by simp [resetGame], ?_, ?_⟩ <;>
        simp [resetGame, MIN_SPEED, INITIAL_SPEED]

theorem reachable_inv (s : GameState) (h : Reachable s) : StateInv s := by
  induction h with
  | init hs _ => exact stateInv_init hs
  | step u t inp _ hstep ih => exact stateInv_step u t inp ih hstep

/-! Reaching the level cap: 100 consecutive wins are possible, and the
101st presentation phase reads one index past the array. -/

theorem addNewStep_winState (n : Nat) (hn : n < 100) :
    addNewStep (winState n) winInput.newSymbol = winState n := by
  unfold addNewStep
  rw [if_pos (show (winState n).currentLevel < MAX_LEVEL from hn)]
  show ({ gameSequence := (List.replicate MAX_LEVEL 0).set n 0
          currentLevel := n
          highScore := 0
          currentSpeed := levelUpSpeed n
          gameOver := false
          eeprom := 0 } : GameState) = winState n
  rw [set_replicate_self MAX_LEVEL n 0]
  rfl

theorem displaySequence_winState (n : Nat) (hn : n < 100) :
    ∃ l, displaySequence (winState n) = some l := by
  obtain ⟨l, hl, -⟩ := displayLoop_spec (List.replicate 100 0)
    (levelUpSpeed n) (n + 1) 0
    (fun j _ h2 => by rw [get?_replicate 100 j 0 (by omega)]; rfl)
  exact ⟨l, hl⟩

theorem readPlayerSequence_winState (n : Nat) (hn : n < 100) :
    readPlayerSequence (winState n) winInput.starts winInput.polls =
      some true := by
  apply readLoop_all_match
  intro k _ hk2
  have hk : k < 100 := by
    simp only [winState] at hk2
    omega
  refine ⟨0, rfl, ?_⟩
  show (List.replicate 100 (0 : Nat))[k]? = some ((0 : Fin 4) : Nat)
  rw [get?_replicate 100 k 0 hk]
  rfl

theorem levelUp_winState (n : Nat) (hn : n < 100) :
    levelUp (winState n) = winState (n + 1) := by
  have hm : (n + 1) % 256 = n + 1 := Nat.mod_eq_of_lt (by omega)
  simp [levelUp, winState, hm]

theorem loopStep_winState (n : Nat) (hn : n < 100) :
    loopStep (winState n) winInput = some (winState (n + 1)) := by
  have hadd := addNewStep_winState n hn
  have h := loopStep_win (winState n) winInput rfl
    (by rw [hadd]; exact displaySequence_winState n hn)
    (by rw [hadd]; exact readPlayerSequence_winState n hn)
  rw [h, hadd, levelUp_winState n hn]

theorem winState_zero : winState 0 = initState 0 := by
  have h : levelUpSpeed 0 = INITIAL_SPEED := by decide
  simp only [winState, initState, h]

theorem winState_reachable (n : Nat) (hn : n ≤ 100) :
    Reachable (winState n) := by
  induction n with
  | zero => exact winState_zero ▸ Reachable.init 0 (by omega)
  | succ m ih =>
      exact Reachable.step _ _ winInput (ih (by omega))
        (loopStep_winState m (by omega))

theorem displayLoop_none (seq : List Nat) (sp : Nat) :
    ∀ rem i j, i ≤ j → j < i + rem → seq[j]? = none →
      displayLoop seq sp i rem = none := by
  intro rem
  induction rem with
  | zero => intro i j h1 h2 _; omega
  | succ m ih =>
      intro i j h1 h2 hj
      rcases Nat.eq_or_lt_of_le h1 with rfl | hlt
      · simp [displayLoop, hj]
      · rcases hg : seq[i]? with _ | v
        · simp [displayLoop, hg]
        · have ht := ih (i + 1) j hlt (by omega) hj
          simp [displayLoop, hg, ht]

theorem displaySequence_winState_100 :
    displaySequence (winState 100) = none := by
  have h100 : (List.replicate 100 (0 : Nat))[(100 : Nat)]? = none :=
    List.getElem?_eq_none_iff.mpr (by simp)
  exact displayLoop_none _ _ 101 0 100 (by omega) (by omega) h100

/-! Debounce lemmas. -/

theorem readButton_pressed_iff (st : ButtonState) (r : Bool) (now : Nat) :
    (readButton st r now).2 = true ↔
      (debounceDelay < now -
          (if r = st.lastButtonState then st.lastDebounceTime else now) ∧
        r ≠ st.currentButtonState ∧ r = LOW) := by
  by_cases h1 : r = st.lastButtonState
  · subst h1
    by_cases h2 : st.lastButtonState = st.currentButtonState
    · by_cases hD : debounceDelay < now - st.lastDebounceTime <;>
        simp [readButton, h2, hD, LOW]
    · by_cases hD : debounceDelay < now - st.lastDebounceTime <;>
        simp [readButton, h2, hD, LOW]
  · simp [readButton, h1, LOW]

theorem runButton_oscillating (st : ButtonState) (tr : List (Nat × Bool))
    (h : oscillating st.lastButtonState st.lastDebounceTime tr = true) :
    (runButton st tr).2 = 0 := by
  induction tr generalizing st with
  | nil => rfl
  | cons p rest ih =>
      obtain ⟨t, r⟩ := p
      rw [oscillating, Bool.and_eq_true] at h
      obtain ⟨h1, h2⟩ := h
      by_cases hr : r = st.lastButtonState
      · have hle : t - st.lastDebounceTime ≤ debounceDelay := by
          simp [hr] at h1
          omega
        rw [if_pos hr] at h2
        have hrb : readButton st r t =
            (⟨st.currentButtonState, r, st.lastDebounceTime⟩, false) := by
          simp [readButton, hr, Nat.not_lt.mpr hle]
        simp only [runButton, hrb]
        simpa using ih ⟨st.currentButtonState, r, st.lastDebounceTime⟩ h2
      · rw [if_neg hr] at h2
        have hrb : readButton st r t = (⟨st.currentButtonState, r, t⟩, false) := by
          simp [readButton, hr]
        simp only [runButton, hrb]
        simpa using ih ⟨st.currentButtonState, r, t⟩ h2

theorem runButton_low_noPress (tr : List (Nat × Bool)) :
    ∀ st : ButtonState, st.currentButtonState = false →
      (∀ p ∈ tr, p.2 = false) →
      (runButton st tr).2 = 0 := by
  induction tr with
  | nil => intro st _ _; rfl
  | cons p rest ih =>
      intro st hcur hall
      obtain ⟨t, r⟩ := p
      have hrf : r = false := hall (t, r) (List.mem_cons_self _ _)
      subst hrf
      have hrb : (readButton st false t).2 = false ∧
          (readButton st false t).1.currentButtonState = false := by
        simp [readButton, hcur, LOW]
      simp only [runButton, hrb.1, if_neg Bool.false_ne_true]
      simpa using ih (readButton st false t).1 hrb.2
        (fun q hq => hall q (List.mem_cons_of_mem _ hq))

theorem runButton_held_press (t0 : Nat) (tr : List (Nat × Bool)) :
    (∀ p ∈ tr, p.2 = false) →
    (∃ p ∈ tr, debounceDelay < p.1 - t0) →
    (runButton ⟨true, false, t0⟩ tr).2 = 1 := by
  induction tr with
  | nil => intro _ hex; simp at hex
  | cons p rest ih =>
      intro hall hex
      obtain ⟨t, r⟩ := p
      have hrf : r = false := hall (t, r) (List.mem_cons_self _ _)
      subst hrf
      by_cases hc : debounceDelay < t - t0
      · have hrb : readButton ⟨true, false, t0⟩ false t =
            (⟨false, false, t0⟩, true) := by
          simp [readButton, hc, LOW]
        have h0 := runButton_low_noPress rest ⟨false, false, t0⟩ rfl
          (fun q hq => hall q (List.mem_cons_of_mem _ hq))
        simp [runButton, hrb, h0]
      · have hrb : readButton ⟨true, false, t0⟩ false t =
            (⟨true, false, t0⟩, false) := by
          simp [readButton, hc]
        simp only [runButton, hrb, if_neg Bool.false_ne_true]
        have hex' : ∃ p ∈ rest, debounceDelay < p.1 - t0 := by
          rcases hex with ⟨q, hq, hqt⟩
          rcases List.mem_cons.mp hq with rfl | hq'
          · exact absurd hqt hc
          · exact ⟨q, hq', hqt⟩
        simpa using ih (fun q hq => hall q (List.mem_cons_of_mem _ hq)) hex'

/-- A clean press: from a stable released state, the raw level goes LOW at
time t0 and stays LOW for the whole trace, and polling continues past the
debounce deadline.  Exactly one press event is produced. -/
theorem runButton_clean_press (st : ButtonState) (t0 : Nat)
    (tr : List (Nat × Bool))
    (hcur : st.currentButtonState = true) (hlast : st.lastButtonState = true)
    (hall : ∀ p ∈ tr, p.2 = false)
    (hheld : ∃ p ∈ tr, debounceDelay < p.1 - t0) :
    (runButton st ((t0, false) :: tr)).2 = 1 := by
  have hrb : readButton st false t0 = (⟨true, false, t0⟩, false) := by
    simp [readButton, hlast, hcur]
  simpa [runButton, hrb] using runButton_held_press t0 tr hall hheld

/-! Noninterference of leftover gameSequence contents. -/

@[simp] theorem levelUp_gameSequence (s : GameState) :
    (levelUp s).gameSequence = s.gameSequence := rfl

@[simp] theorem levelUp_highScore (s : GameState) :
    (levelUp s).highScore = s.highScore := rfl

@[simp] theorem levelUp_gameOver (s : GameState) :
    (levelUp s).gameOver = s.gameOver := rfl

@[simp] theorem levelUp_eeprom (s : GameState) :
    (levelUp s).eeprom = s.eeprom := rfl

@[simp] theorem levelUp_currentLevel (s : GameState) :
    (levelUp s).currentLevel = (s.currentLevel + 1) % 256 := rfl

@[simp] theorem levelUp_currentSpeed (s : GameState) :
    (levelUp s).currentSpeed = levelUpSpeed ((s.currentLevel + 1) % 256) := rfl

@[simp] theorem resetGame_gameSequence (s : GameState) :
    (resetGame s).gameSequence = s.gameSequence := rfl

@[simp] theorem resetGame_currentLevel (s : GameState) :
    (resetGame s).currentLevel = 0 := rfl

@[simp] theorem resetGame_highScore (s : GameState) :
    (resetGame s).highScore = s.highScore := rfl

@[simp] theorem resetGame_currentSpeed (s : GameState) :
    (resetGame s).currentSpeed = INITIAL_SPEED := rfl

@[simp] theorem resetGame_gameOver (s : GameState) :
    (resetGame s).gameOver = false := rfl

@[simp] theorem resetGame_eeprom (s : GameState) :
    (resetGame s).eeprom = s.eeprom := rfl

@[simp] theorem handleGameOver_eeprom_simp (s : GameState) :
    (handleGameOver s).eeprom =
      if s.highScore < s.currentLevel then s.currentLevel else s.eeprom :=
  handleGameOver_eeprom s

theorem gameStateExt (u v : GameState)
    (h1 : u.gameSequence = v.gameSequence)
    (h2 : u.currentLevel = v.currentLevel) (h3 : u.highScore = v.highScore)
    (h4 : u.currentSpeed = v.currentSpeed) (h5 : u.gameOver = v.gameOver)
    (h6 : u.eeprom = v.eeprom) : u = v := by
  cases u; cases v; simp_all

theorem loopStep_length (s t : GameState) (inp : RoundInput)
    (hstep : loopStep s inp = some t) :
    t.gameSequence.length = s.gameSequence.length := by
  rcases hgo : s.gameOver with _ | _
  · rcases hd : displaySequence (addNewStep s inp.newSymbol) with _ | l
    · simp [loopStep, hgo, hd] at hstep
    · rcases hr : readPlayerSequence (addNewStep s inp.newSymbol) inp.starts
          inp.polls with _ | b
      · simp [loopStep, hgo, hd, hr] at hstep
      · rcases b with _ | _
        · rw [loopStep_lose s inp hgo ⟨l, hd⟩ hr] at hstep
          obtain rfl := Option.some.inj hstep
          simp
        · rw [loopStep_win s inp hgo ⟨l, hd⟩ hr] at hstep
          obtain rfl := Option.some.inj hstep
          simp
  · rw [loopStep_gameOver s inp hgo] at hstep
    obtain rfl := Option.some.inj hstep
    rcases inp.anyPressed with _ | _ <;> simp

/-- Pointwise agreement of the sequence arrays below the (common) level. -/
def SeqAgree (u v : GameState) : Prop :=
  ∀ j, j < u.currentLevel → u.gameSequence[j]? = v.gameSequence[j]?

/-- Bisimulation invariant for noninterference: equality of all non-array
fields, fixed array sizes, and agreement of the array prefixes that the
game can still observe. -/
def Inv (u v : GameState) : Prop :=
  AgreeExceptSeq u v ∧ u.gameSequence.length = MAX_LEVEL ∧
  v.gameSequence.length = MAX_LEVEL ∧ SeqAgree u v

/-- Lift of Inv to the optional results of loopStep. -/
def OptInv : Option GameState → Option GameState → Prop
  | none, none => True
  | some a, some b => Inv a b
  | _, _ => False

theorem seqAgree_after_add (u v : GameState) (sym : Fin 4)
    (hL : u.currentLevel = v.currentLevel)
    (hlu : u.gameSequence.length = MAX_LEVEL)
    (hlv : v.gameSequence.length = MAX_LEVEL)
    (hseq : SeqAgree u v) (hcap : u.currentLevel < MAX_LEVEL) :
    ∀ j, j < u.currentLevel + 1 →
      (addNewStep u sym).gameSequence[j]? = (addNewStep v sym).gameSequence[j]? := by
  intro j hj
  have hu : (addNewStep u sym).gameSequence =
      u.gameSequence.set u.currentLevel sym.val := by
    unfold addNewStep; rw [if_pos hcap]
  have hv : (addNewStep v sym).gameSequence =
      v.gameSequence.set v.currentLevel sym.val := by
    unfold addNewStep; rw [if_pos (hL ▸ hcap)]
  rw [hu, hv, ← hL]
  rcases Nat.lt_or_ge j u.currentLevel with hlt | hge
  · rw [get?_set_ne _ _ _ _ (by omega), get?_set_ne _ _ _ _ (by omega)]
    exact hseq j hlt
  · have hj' : j = u.currentLevel := by omega
    subst hj'
    rw [get?_set_self _ _ _ (by omega), get?_set_self _ _ _ (by omega)]

theorem inv_step (u v : GameState) (inp : RoundInput) (h : Inv u v) :
    stepObs u inp = stepObs v inp ∧ OptInv (loopStep u inp) (loopStep v inp) := by
  obtain ⟨⟨hL, hHS, hSP, hGO, hE⟩, hlu, hlv, hseq⟩ := h
  rcases hgo : u.gameOver with _ | _
  · have hgov : v.gameOver = false := hGO ▸ hgo
    rcases Nat.lt_or_ge u.currentLevel MAX_LEVEL with hcap | hcap
    · have hadd := seqAgree_after_add u v inp.newSymbol hL hlu hlv hseq hcap
      have hdisp : displaySequence (addNewStep u inp.newSymbol) =
          displaySequence (addNewStep v inp.newSymbol) := by
        unfold displaySequence
        rw [addNewStep_currentLevel, addNewStep_currentLevel,
          addNewStep_currentSpeed, addNewStep_currentSpeed, hSP, hL]
        exact displayLoop_congr _ _ _ (v.currentLevel + 1) 0
          (fun j h1 h2 => hadd j (by omega))
      have hread : readPlayerSequence (addNewStep u inp.newSymbol) inp.starts
          inp.polls =
          readPlayerSequence (addNewStep v inp.newSymbol) inp.starts inp.polls := by
        unfold readPlayerSequence
        rw [addNewStep_currentLevel, addNewStep_currentLevel, hL]
        exact readLoop_congr _ _ inp.starts inp.polls (v.currentLevel + 1) 0
          (fun j h1 h2 => hadd j (by omega))
      constructor
      · simp [stepObs, hgo, hgov, hdisp, hread, hHS, hL]
      · rcases hd : displaySequence (addNewStep u inp.newSymbol) with _ | l
        · have hdv : displaySequence (addNewStep v inp.newSymbol) = none :=
            hdisp ▸ hd
          simp [loopStep, hgo, hgov, hd, hdv, OptInv]
        · have hdv : displaySequence (addNewStep v inp.newSymbol) = some l :=
            hdisp ▸ hd
          rcases hr : readPlayerSequence (addNewStep u inp.newSymbol) inp.starts
              inp.polls with _ | b
          · have hrv := hread ▸ hr
            simp [loopStep, hgo, hgov, hd, hdv, hr, hrv, OptInv]
          · have hrv : readPlayerSequence (addNewStep v inp.newSymbol) inp.starts
                inp.polls = some b := hread ▸ hr
            rcases b with _ | _
            · rw [loopStep_lose u inp hgo ⟨l, hd⟩ hr,
                loopStep_lose v inp hgov ⟨l, hdv⟩ hrv]
              show Inv (handleGameOver (addNewStep u inp.newSymbol))
                (handleGameOver (addNewStep v inp.newSymbol))
              refine ⟨⟨?_, ?_, ?_, ?_, ?_⟩, ?_, ?_, ?_⟩
              · simp [hL]
              · simp [handleGameOver_highScore, hHS, hL]
              · simp [hSP]
              · simp
              · simp [hHS, hL, hE]
              · simp [hlu]
              · simp [hlv]
              · intro j hj
                simp only [handleGameOver_gameSequence,
                  handleGameOver_currentLevel, addNewStep_currentLevel] at hj ⊢
                exact hadd j (by omega)
            · rw [loopStep_win u inp hgo ⟨l, hd⟩ hr,
                loopStep_win v inp hgov ⟨l, hdv⟩ hrv]
              show Inv (levelUp (addNewStep u inp.newSymbol))
                (levelUp (addNewStep v inp.newSymbol))
              have hmod : (u.currentLevel + 1) % 256 = u.currentLevel + 1 :=
                Nat.mod_eq_of_lt (by unfold MAX_LEVEL at hcap; omega)
              refine ⟨⟨?_, ?_, ?_, ?_, ?_⟩, ?_, ?_, ?_⟩
              · simp [hL]
              · simp [hHS]
              · simp [hL]
              · simp [hgo, hgov]
              · simp [hE]
              · simp [hlu]
              · simp [hlv]
              · intro j hj
                simp only [levelUp_gameSequence, levelUp_currentLevel,
                  addNewStep_currentLevel, hmod] at hj ⊢
                exact hadd j (by omega)
    · have hle : u.gameSequence = v.gameSequence := by
        apply List.ext_getElem?
        intro i
        rcases Nat.lt_or_ge i MAX_LEVEL with hi | hi
        · exact hseq i (by omega)
        · rw [List.getElem?_eq_none_iff.mpr (by omega),
            List.getElem?_eq_none_iff.mpr (by omega)]
      have huv : u = v := gameStateExt u v hle hL hHS hSP hGO hE
      subst huv
      refine ⟨rfl, ?_⟩
      rcases hstep : loopStep u inp with _ | t
      · simp [OptInv]
      · show Inv t t
        refine ⟨⟨rfl, rfl, rfl, rfl, rfl⟩, ?_, ?_, fun j _ => rfl⟩ <;>
          rw [loopStep_length u t inp hstep] <;> exact hlu
  · have hgov : v.gameOver = true := hGO ▸ hgo
    constructor
    · simp [stepObs, hgo, hgov]
    · rw [loopStep_gameOver u inp hgo, loopStep_gameOver v inp hgov]
      show Inv (if inp.anyPressed then resetGame u else u)
        (if inp.anyPressed then resetGame v else v)
      rcases inp.anyPressed with _ | _
      · show Inv u v
        exact ⟨⟨hL, hHS, hSP, hGO, hE⟩, hlu, hlv, hseq⟩
      · show Inv (resetGame u) (resetGame v)
        refine ⟨⟨by simp, by simp [hHS], by simp, by simp, by simp [hE]⟩,
          by simp [hlu], by simp [hlv], ?_⟩
        intro j hj
        simp at hj

theorem runGame_agree (inps : List RoundInput) :
    ∀ u v, Inv u v → (runGame u inps).1 = (runGame v inps).1 ∧
      OptInv (runGame u inps).2 (runGame v inps).2 := by
  induction inps with
  | nil => intro u v h; exact ⟨rfl, h⟩
  | cons inp rest ih =>
      intro u v h
      obtain ⟨hobs, hopt⟩ := inv_step u v inp h
      rcases hsu : loopStep u inp with _ | u2 <;>
        rcases hsv : loopStep v inp with _ | v2 <;>
          rw [hsu, hsv] at hopt
      · simp only [runGame, hsu, hsv, hobs]
        exact ⟨trivial, trivial⟩
      · exact absurd hopt (by simp [OptInv])
      · exact absurd hopt (by simp [OptInv])
      · have hinv : Inv u2 v2 := hopt
        obtain ⟨hr1, hr2⟩ := ih u2 v2 hinv
        simp only [runGame, hsu, hsv, hobs, hr1]
        exact ⟨trivial, hr2⟩

/-! Remaining helpers: high-score monotonicity, win counting. -/

theorem get?_isSome_of_lt (l : List Nat) (i : Nat) (h : i < l.length) :
    l[i]?.isSome := by
  simp [List.getElem?_eq_getElem, h]

theorem addNewStep_winState_cap (sym : Fin 4) :
    addNewStep (winState 100) sym = winState 100 := by
  unfold addNewStep
  rw [if_neg (by norm_num [winState, MAX_LEVEL])]

theorem loopStep_highScore_mono (s t : GameState) (inp : RoundInput)
    (hstep : loopStep s inp = some t) : s.highScore ≤ t.highScore := by
  rcases hgo : s.gameOver with _ | _
  · rcases hd : displaySequence (addNewStep s inp.newSymbol) with _ | l
    · simp [loopStep, hgo, hd] at hstep
    · rcases hr : readPlayerSequence (addNewStep s inp.newSymbol) inp.starts
          inp.polls with _ | b
      · simp [loopStep, hgo, hd, hr] at hstep
      · rcases b with _ | _
        · rw [loopStep_lose s inp hgo ⟨l, hd⟩ hr] at hstep
          obtain rfl := Option.some.inj hstep
          rw [handleGameOver_highScore]
          simp
        · rw [loopStep_win s inp hgo ⟨l, hd⟩ hr] at hstep
          obtain rfl := Option.some.inj hstep
          simp
  · rw [loopStep_gameOver s inp hgo] at hstep
    obtain rfl := Option.some.inj hstep
    rcases inp.anyPressed with _ | _ <;> simp

theorem runGame_highScore_mono (inps : List RoundInput) :
    ∀ s t, (runGame s inps).2 = some t → s.highScore ≤ t.highScore := by
  induction inps with
  | nil =>
      intro s t h
      obtain rfl := Option.some.inj h
      exact Nat.le_refl _
  | cons inp rest ih =>
      intro s t h
      rcases hstep : loopStep s inp with _ | u
      · simp [runGame, hstep] at h
      · rw [runGame, hstep] at h
        exact Nat.le_trans (loopStep_highScore_mono s u inp hstep) (ih u t h)

theorem winsFrom_aux (s : GameState) (N : Nat) (t : GameState)
    (h : WinsFrom s N t) (h0 : s.currentLevel = 0)
    (hsp : s.currentSpeed = INITIAL_SPEED) (hgo : s.gameOver = false)
    (hlen : s.gameSequence.length = MAX_LEVEL) :
    t.currentLevel = N ∧ t.currentSpeed = levelUpSpeed N ∧
    t.gameOver = false ∧ t.gameSequence.length = MAX_LEVEL ∧ N ≤ MAX_LEVEL := by
  induction h with
  | refl =>
      refine ⟨h0, ?_, hgo, hlen, by unfold MAX_LEVEL; omega⟩
      rw [hsp]
      decide
  | step n t1 t2 inp hw hwin hstep ih =>
      obtain ⟨hl1, hs1, hg1, hn1, hN1⟩ := ih
      rcases hd : displaySequence (addNewStep t1 inp.newSymbol) with _ | l
      · rw [loopStep] at hstep
        simp [hg1, hd] at hstep
      · have hcap : n < MAX_LEVEL := by
          have := displaySequence_level_lt _ _ hd
          simp only [addNewStep_currentLevel, addNewStep_length, hl1, hn1] at this
          exact this
        rw [loopStep_win t1 inp hg1 ⟨l, hd⟩ hwin] at hstep
        obtain rfl := Option.some.inj hstep
        have hmod : (n + 1) % 256 = n + 1 :=
          Nat.mod_eq_of_lt (by unfold MAX_LEVEL at hcap; omega)
        refine ⟨?_, ?_, by simp [hg1], by simp [hn1], ?_⟩
        · simp [hl1, hmod]
        · simp [hl1, hmod]
        · unfold MAX_LEVEL at hcap ⊢; omega

theorem winsFrom_winState (n : Nat) (hn : n ≤ 100) :
    WinsFrom (initState 0) n (winState n) := by
  induction n with
  | zero => exact winState_zero ▸ WinsFrom.refl (initState 0)
  | succ m ih =>
      refine WinsFrom.step (initState 0) m (winState m) (winState (m + 1))
        winInput (ih (by omega)) ?_ (loopStep_winState m (by omega))
      rw [addNewStep_winState m (by omega)]
      exact readPlayerSequence_winState m (by omega)

/-! The claims. -/

/-- C1: for a round at level L (with the full array and L below the cap,
as in every well-formed round): if every step i in 0..L gets a first
accepted press within its 3000 ms window equal to gameSequence[i],
readPlayerSequence returns true and the engine takes the levelUp
(RoundWon) branch; if the steps before some j all match and step j times
out or its first accepted press differs from gameSequence[j],
readPlayerSequence returns false immediately (no retry) and the engine
takes the handleGameOver branch, with level unchanged — i.e. equal to the
number of fully completed prior rounds. -/
theorem c1_round_correctness (s : GameState) (inp : RoundInput)
    (hgo : s.gameOver = false)
    (hlen : s.gameSequence.length = MAX_LEVEL)
    (hcap : s.currentLevel < MAX_LEVEL) :
    ((∀ i, i ≤ s.currentLevel →
        StepMatch (addNewStep s inp.newSymbol).gameSequence inp.starts
          inp.polls i) →
      readPlayerSequence (addNewStep s inp.newSymbol) inp.starts inp.polls =
        some true ∧
      loopStep s inp = some (levelUp (addNewStep s inp.newSymbol))) ∧
    (∀ j, j ≤ s.currentLevel →
      (∀ i, i < j →
        StepMatch (addNewStep s inp.newSymbol).gameSequence inp.starts
          inp.polls i) →
      StepFail (addNewStep s inp.newSymbol).gameSequence inp.starts
        inp.polls j →
      readPlayerSequence (addNewStep s inp.newSymbol) inp.starts inp.polls =
        some false ∧
      loopStep s inp = some (handleGameOver (addNewStep s inp.newSymbol)) ∧
      (handleGameOver (addNewStep s inp.newSymbol)).gameOver = true ∧
      (handleGameOver (addNewStep s inp.newSymbol)).currentLevel =
        s.currentLevel) := by
  have hdisp : ∃ l, displaySequence (addNewStep s inp.newSymbol) = some l := by
    obtain ⟨l, hl, -⟩ := displayLoop_spec (addNewStep s inp.newSymbol).gameSequence
      (addNewStep s inp.newSymbol).currentSpeed
      ((addNewStep s inp.newSymbol).currentLevel + 1) 0
      (fun j _ h2 => get?_isSome_of_lt _ _ (by
        simp only [addNewStep_length, addNewStep_currentLevel, hlen] at h2 ⊢
        unfold MAX_LEVEL at hcap ⊢
        omega))
    exact ⟨l, hl⟩
  constructor
  · intro hmatch
    have hread : readPlayerSequence (addNewStep s inp.newSymbol) inp.starts
        inp.polls = some true := by
      apply readLoop_all_match
      intro k _ hk2
      simp only [addNewStep_currentLevel] at hk2
      exact hmatch k (by omega)
    exact ⟨hread, loopStep_win s inp hgo hdisp hread⟩
  · intro j hj hpre hfail
    have hread : readPlayerSequence (addNewStep s inp.newSymbol) inp.starts
        inp.polls = some false := by
      apply readLoop_fail _ _ _ _ 0 j (Nat.zero_le j)
        (by simp only [addNewStep_currentLevel]; omega)
        (fun k _ hk => hpre k hk) hfail
    exact ⟨hread, loopStep_lose s inp hgo hdisp hread, by simp, by simp⟩

/-- Witness for C1: a fresh game with one-symbol sequence [2]; pressing
button 2 in time wins the round, pressing button 1 loses it with the level
still 0. -/
theorem c1_round_correctness_witness :
    (readPlayerSequence (addNewStep (initState 5) 2) (fun _ => 0)
        (fun _ => [(10, some 2)]) = some true ∧
      loopStep (initState 5) ⟨2, fun _ => 0, fun _ => [(10, some 2)], false⟩ =
        some (levelUp (addNewStep (initState 5) 2))) ∧
    (readPlayerSequence (addNewStep (initState 5) 2) (fun _ => 0)
        (fun _ => [(10, some 1)]) = some false ∧
      loopStep (initState 5) ⟨2, fun _ => 0, fun _ => [(10, some 1)], false⟩ =
        some (handleGameOver (addNewStep (initState 5) 2)) ∧
      (handleGameOver (addNewStep (initState 5) 2)).gameOver = true ∧
      (handleGameOver (addNewStep (initState 5) 2)).currentLevel =
        (initState 5).currentLevel) := by
  constructor
  · exact (c1_round_correctness (initState 5)
      ⟨2, fun _ => 0, fun _ => [(10, some 2)], false⟩ rfl
      (by simp [initState]) (by norm_num [initState, MAX_LEVEL])).1
      (fun i hi => by
        have h0 : i = 0 := by simpa [initState] using hi
        subst h0
        exact ⟨2, rfl, by decide⟩)
  · exact (c1_round_correctness (initState 5)
      ⟨2, fun _ => 0, fun _ => [(10, some 1)], false⟩ rfl
      (by simp [initState]) (by norm_num [initState, MAX_LEVEL])).2 0
      (by simp [initState]) (fun i hi => absurd hi (by omega))
      (Or.inr ⟨1, 2, rfl, by decide, by decide⟩)

/-- C2: on every game over the stored high score (memory and EEPROM) is set
to the finished level exactly when that level strictly exceeds it and is
left unchanged otherwise; a level-0 game over never overwrites a positive
high score; and the high score never decreases across loop iterations or
whole runs. -/
theorem c2_highscore_update (s : GameState) :
    ((s.highScore < s.currentLevel →
        (handleGameOver s).highScore = s.currentLevel ∧
        (handleGameOver s).eeprom = s.currentLevel) ∧
      (¬ s.highScore < s.currentLevel →
        (handleGameOver s).highScore = s.highScore ∧
        (handleGameOver s).eeprom = s.eeprom)) ∧
    (s.currentLevel = 0 → 0 < s.highScore →
      (handleGameOver s).highScore = s.highScore ∧
      (handleGameOver s).eeprom = s.eeprom) ∧
    (∀ inp t, loopStep s inp = some t → s.highScore ≤ t.highScore) ∧
    (∀ inps t, (runGame s inps).2 = some t → s.highScore ≤ t.highScore) := by
  refine ⟨⟨?_, ?_⟩, ?_, ?_, ?_⟩
  · intro h
    rw [handleGameOver_highScore, handleGameOver_eeprom, if_pos h]
    exact ⟨by omega, rfl⟩
  · intro h
    rw [handleGameOver_highScore, handleGameOver_eeprom, if_neg h]
    exact ⟨by omega, rfl⟩
  · intro h1 h2
    rw [handleGameOver_highScore, handleGameOver_eeprom, if_neg (by omega)]
    exact ⟨by omega, rfl⟩
  · exact fun inp t h => loopStep_highScore_mono s t inp h
  · exact fun inps t h => runGame_highScore_mono inps s t h

/-- Witness for C2: a game over at level 3 with stored high score 1 updates
both stores to 3; a level-0 game over with stored high score 5 leaves 5;
running one losing round from a fresh game with high score 5 does not
decrease it. -/
theorem c2_highscore_update_witness :
    ((handleGameOver (winState 3)).highScore = (winState 3).currentLevel ∧
      (handleGameOver (winState 3)).eeprom = (winState 3).currentLevel) ∧
    ((handleGameOver (initState 5)).highScore = (initState 5).highScore ∧
      (handleGameOver (initState 5)).eeprom = (initState 5).eeprom) ∧
    (initState 5).highScore ≤
      (handleGameOver (addNewStep (initState 5) 0)).highScore ∧
    (initState 5).highScore ≤
      (handleGameOver (addNewStep (initState 5) 0)).highScore := by
  refine ⟨(c2_highscore_update (winState 3)).1.1 (by norm_num [winState]),
    (c2_highscore_update (initState 5)).2.1 (by norm_num [initState])
      (by norm_num [initState]), ?_, ?_⟩
  · exact (c2_highscore_update (initState 5)).2.2.1
      ⟨0, fun _ => 0, fun _ => [], false⟩
      (handleGameOver (addNewStep (initState 5) 0)) (by decide)
  · exact (c2_highscore_update (initState 5)).2.2.2
      [⟨0, fun _ => 0, fun _ => [], false⟩]
      (handleGameOver (addNewStep (initState 5) 0)) (by decide)

/-- C3: after N consecutively won rounds from a fresh game, level equals N
and speed equals max(MIN_SPEED, INITIAL_SPEED - N * SPEED_DECREASE)
(computed in int arithmetic); the speed formula is non-increasing in the
level, and resetGame restores INITIAL_SPEED. -/
theorem c3_level_speed (s t : GameState) (N : Nat)
    (h0 : s.currentLevel = 0) (hsp : s.currentSpeed = INITIAL_SPEED)
    (hgo : s.gameOver = false) (hlen : s.gameSequence.length = MAX_LEVEL)
    (h : WinsFrom s N t) :
    t.currentLevel = N ∧
    t.currentSpeed =
      (max (MIN_SPEED : Int) ((INITIAL_SPEED : Int) - N * SPEED_DECREASE)).toNat ∧
    (∀ a b : Nat, a ≤ b → levelUpSpeed b ≤ levelUpSpeed a) ∧
    (∀ u : GameState, (resetGame u).currentSpeed = INITIAL_SPEED) := by
  obtain ⟨h1, h2, -, -, -⟩ := winsFrom_aux s N t h h0 hsp hgo hlen
  exact ⟨h1, h2, fun a b hab => levelUpSpeed_antitone hab, fun u => rfl⟩

/-- Witness for C3: two won rounds from a fresh game yield level 2 and
speed 900 = max(250, 1000 - 2*50). -/
theorem c3_level_speed_witness :
    (winState 2).currentLevel = 2 ∧
    (winState 2).currentSpeed =
      (max (MIN_SPEED : Int) ((INITIAL_SPEED : Int) - 2 * SPEED_DECREASE)).toNat ∧
    levelUpSpeed 7 ≤ levelUpSpeed 3 ∧
    (resetGame (winState 2)).currentSpeed = INITIAL_SPEED := by
  have h := c3_level_speed (initState 0) (winState 2) 2 rfl rfl rfl
    (by simp [initState]) (winsFrom_winState 2 (by omega))
  exact ⟨h.1, h.2.1, h.2.2.1 3 7 (by omega), h.2.2.2 (winState 2)⟩

/-- C4: every reachable state has level at most MAX_LEVEL and speed within
[MIN_SPEED, INITIAL_SPEED]. -/
theorem c4_state_bounds (s : GameState) (h : Reachable s) :
    s.currentLevel ≤ MAX_LEVEL ∧ MIN_SPEED ≤ s.currentSpeed ∧
    s.currentSpeed ≤ INITIAL_SPEED := by
  obtain ⟨-, h2, h3, h4⟩ := reachable_inv s h
  exact ⟨h2, h3, h4⟩

/-- Witness for C4: the bounds at the power-up state with EEPROM byte 7. -/
theorem c4_state_bounds_witness :
    (initState 7).currentLevel ≤ MAX_LEVEL ∧
    MIN_SPEED ≤ (initState 7).currentSpeed ∧
    (initState 7).currentSpeed ≤ INITIAL_SPEED :=
  c4_state_bounds (initState 7) (Reachable.init 7 (by omega))

/-- C5: at the cap, addNewStep is a silent no-op (state unchanged); below
the cap it writes exactly one cell, gameSequence[currentLevel], leaving
every other cell and every other field unchanged; the array length (and so
the stored sequence size) never exceeds MAX_LEVEL. -/
theorem c5_capacity (s : GameState) (sym : Fin 4) :
    (MAX_LEVEL ≤ s.currentLevel → addNewStep s sym = s) ∧
    (addNewStep s sym).gameSequence.length = s.gameSequence.length ∧
    (s.currentLevel < MAX_LEVEL → s.gameSequence.length = MAX_LEVEL →
      (addNewStep s sym).gameSequence[s.currentLevel]? = some sym.val ∧
      (∀ j, j ≠ s.currentLevel →
        (addNewStep s sym).gameSequence[j]? = s.gameSequence[j]?) ∧
      AgreeExceptSeq (addNewStep s sym) s) := by
  refine ⟨?_, by simp, ?_⟩
  · intro h
    unfold addNewStep
    rw [if_neg (Nat.not_lt.mpr h)]
  · intro hcap hlen
    have hseq : (addNewStep s sym).gameSequence =
        s.gameSequence.set s.currentLevel sym.val := by
      unfold addNewStep; rw [if_pos hcap]
    refine ⟨by rw [hseq]; exact get?_set_self _ _ _ (by omega), ?_,
      by simp [AgreeExceptSeq]⟩
    intro j hj
    rw [hseq]
    exact get?_set_ne _ _ _ _ (fun h => hj h.symm)

/-- Witness for C5: at level 100 appending is the identity; at level 0 the
appended symbol lands in cell 0. -/
theorem c5_capacity_witness :
    addNewStep (winState 100) 1 = winState 100 ∧
    (addNewStep (initState 3) 1).gameSequence[(initState 3).currentLevel]? =
      some ((1 : Fin 4).val) :=
  ⟨(c5_capacity (winState 100) 1).1 (by norm_num [winState, MAX_LEVEL]),
    ((c5_capacity (initState 3) 1).2.2 (by norm_num [initState, MAX_LEVEL])
      (by simp [initState])).1⟩

/-- C6: debounce correctness of readButton: (a) a raw level that keeps
changing within every debounce window produces zero press events; (b) one
clean transition to LOW held past the debounce interval (with continued
polling) produces exactly one press event; (c) a call reports a press
exactly when the debounced level transitions into the active LOW
polarity — never while held, released, or bouncing. -/
theorem c6_debounce :
    (∀ (st : ButtonState) (tr : List (Nat × Bool)),
      oscillating st.lastButtonState st.lastDebounceTime tr = true →
      (runButton st tr).2 = 0) ∧
    (∀ (st : ButtonState) (t0 : Nat) (tr : List (Nat × Bool)),
      st.currentButtonState = HIGH → st.lastButtonState = HIGH →
      (∀ p ∈ tr, p.2 = LOW) → (∃ p ∈ tr, debounceDelay < p.1 - t0) →
      (runButton st ((t0, LOW) :: tr)).2 = 1) ∧
    (∀ (st : ButtonState) (r : Bool) (now : Nat),
      (readButton st r now).2 = true ↔
        (debounceDelay < now -
            (if r = st.lastButtonState then st.lastDebounceTime else now) ∧
          r ≠ st.currentButtonState ∧ r = LOW)) :=
  ⟨runButton_oscillating,
   fun st t0 tr h1 h2 h3 h4 => runButton_clean_press st t0 tr h1 h2 h3 h4,
   readButton_pressed_iff⟩

/-- Witness for C6: a bouncing trace yields no press; a clean held LOW
yields one press; the press characterisation at a concrete call. -/
theorem c6_debounce_witness :
    (runButton ⟨true, true, 0⟩ [(10, false), (20, true), (30, false)]).2 = 0 ∧
    (runButton ⟨true, true, 0⟩ [(100, false), (200, false)]).2 = 1 ∧
    ((readButton ⟨true, false, 40⟩ false 100).2 = true ↔
      (debounceDelay < 100 -
          (if false = (⟨true, false, 40⟩ : ButtonState).lastButtonState then
            (⟨true, false, 40⟩ : ButtonState).lastDebounceTime else 100) ∧
        false ≠ (⟨true, false, 40⟩ : ButtonState).currentButtonState ∧
        false = LOW)) := by
  refine ⟨c6_debounce.1 ⟨true, true, 0⟩ [(10, false), (20, true), (30, false)]
    (by decide), ?_, c6_debounce.2.2 ⟨true, false, 40⟩ false 100⟩
  exact c6_debounce.2.1 ⟨true, true, 0⟩ 100 [(200, false)] rfl rfl (by decide)
    ⟨(200, false), by simp, by decide⟩

/-- C7 (amended): in every Presenting phase at level L strictly below
MAX_LEVEL, the engine first appends one new symbol at index L, then issues
exactly L+1 presentation requests, one per index 0..L in order, each with
on-duration equal to the current speed and off-duration speed/2, consulting
no player input (displaySequence is a function of the state alone); at
L = MAX_LEVEL nothing is appended and no well-formed request list exists. -/
theorem c7_presentation (s : GameState) (sym : Fin 4)
    (hlen : s.gameSequence.length = MAX_LEVEL)
    (hcap : s.currentLevel < MAX_LEVEL) :
    (addNewStep s sym).gameSequence[s.currentLevel]? = some sym.val ∧
    ∃ reqs, displaySequence (addNewStep s sym) = some reqs ∧
      reqs.length = s.currentLevel + 1 ∧
      ∀ i, i ≤ s.currentLevel →
        ∃ v, (addNewStep s sym).gameSequence[i]? = some v ∧
          reqs[i]? = some (v, s.currentSpeed, s.currentSpeed / 2) := by
  have hseq : (addNewStep s sym).gameSequence =
      s.gameSequence.set s.currentLevel sym.val := by
    unfold addNewStep; rw [if_pos hcap]
  refine ⟨by rw [hseq]; exact get?_set_self _ _ _ (by omega), ?_⟩
  obtain ⟨reqs, hr, hrl, hent⟩ := displayLoop_spec
    (addNewStep s sym).gameSequence (addNewStep s sym).currentSpeed
    ((addNewStep s sym).currentLevel + 1) 0
    (fun j _ h2 => get?_isSome_of_lt _ _ (by
      simp only [addNewStep_length, addNewStep_currentLevel, hlen] at h2 ⊢
      unfold MAX_LEVEL at hcap ⊢
      omega))
  refine ⟨reqs, hr, by simpa using hrl, ?_⟩
  intro i hi
  obtain ⟨v, hv1, hv2⟩ := hent i (by simp only [addNewStep_currentLevel]; omega)
  exact ⟨v, by simpa using hv1, by simpa using hv2⟩

/-- C7 counterexample to the claim as stated: the Presenting phase at
level MAX_LEVEL is reachable (after 100 consecutively won rounds), and
there the engine appends no new symbol (addNewStep is the identity) and
issues no request list at all: the presentation loop hits the
out-of-bounds read instead of producing L+1 requests. -/
theorem c7_presentation_counterexample :
    Reachable (winState 100) ∧ (winState 100).gameOver = false ∧
    (winState 100).currentLevel = MAX_LEVEL ∧
    addNewStep (winState 100) 2 = winState 100 ∧
    displaySequence (addNewStep (winState 100) 2) = none := by
  refine ⟨winState_reachable 100 (by omega), rfl, rfl,
    addNewStep_winState_cap 2, ?_⟩
  rw [addNewStep_winState_cap 2]
  exact displaySequence_winState_100

/-- Witness for C7 (amended): the first round of a fresh game appends
symbol 3 at index 0 and presents exactly one request. -/
theorem c7_presentation_witness :
    (addNewStep (initState 0) 3).gameSequence[(initState 0).currentLevel]? =
      some ((3 : Fin 4).val) ∧
    ∃ reqs, displaySequence (addNewStep (initState 0) 3) = some reqs ∧
      reqs.length = (initState 0).currentLevel + 1 ∧
      ∀ i, i ≤ (initState 0).currentLevel →
        ∃ v, (addNewStep (initState 0) 3).gameSequence[i]? = some v ∧
          reqs[i]? = some (v, (initState 0).currentSpeed,
            (initState 0).currentSpeed / 2) :=
  c7_presentation (initState 0) 3 (by simp [initState])
    (by norm_num [initState, MAX_LEVEL])

/-- C8: the Idle restart (resetGame, triggered in the gameOver branch by
any accepted press) always yields level 0, speed INITIAL_SPEED, a cleared
flag and an empty logical sequence, so any two restarts agree on all of
these regardless of the prior games. -/
theorem c8_reset (s t : GameState) (inp : RoundInput) :
    (resetGame s).currentLevel = 0 ∧
    (resetGame s).currentSpeed = INITIAL_SPEED ∧
    (resetGame s).gameOver = false ∧
    logicalSeq (resetGame s) = [] ∧
    (s.gameOver = true →
      loopStep s inp = some (if inp.anyPressed then resetGame s else s)) ∧
    ((resetGame s).currentLevel = (resetGame t).currentLevel ∧
      (resetGame s).currentSpeed = (resetGame t).currentSpeed ∧
      (resetGame s).gameOver = (resetGame t).gameOver ∧
      logicalSeq (resetGame s) = logicalSeq (resetGame t)) :=
  ⟨rfl, rfl, rfl, rfl, loopStep_gameOver s inp, rfl, rfl, rfl, rfl⟩

/-- Witness for C8: restarting after a game over of a fresh game. -/
theorem c8_reset_witness :
    (resetGame (handleGameOver (initState 0))).currentLevel = 0 ∧
    (resetGame (handleGameOver (initState 0))).currentSpeed = INITIAL_SPEED ∧
    logicalSeq (resetGame (handleGameOver (initState 0))) = [] ∧
    loopStep (handleGameOver (initState 0)) ⟨0, fun _ => 0, fun _ => [], true⟩ =
      some (resetGame (handleGameOver (initState 0))) := by
  have h := c8_reset (handleGameOver (initState 0)) (initState 0)
    ⟨0, fun _ => 0, fun _ => [], true⟩
  refine ⟨h.1, h.2.1, h.2.2.2.1, ?_⟩
  have h5 := h.2.2.2.2.1 (by simp)
  simpa using h5

/-- C9: the out-of-bounds branch is reachable, refuting the safety claim:
after 100 consecutively won rounds the engine is in a Presenting phase with
currentLevel = MAX_LEVEL = gameSequence length, and displaySequence reads
gameSequence[MAX_LEVEL] — one past the end of the array — so the total
embedding takes the none branch and the loop iteration is undefined. -/
theorem c9_oob_read :
    Reachable (winState 100) ∧ (winState 100).gameOver = false ∧
    (winState 100).currentLevel = MAX_LEVEL ∧
    (winState 100).gameSequence.length = MAX_LEVEL ∧
    displaySequence (winState 100) = none ∧
    ∀ inp : RoundInput, loopStep (winState 100) inp = none := by
  refine ⟨winState_reachable 100 (by omega), rfl, rfl, by simp [winState],
    displaySequence_winState_100, ?_⟩
  intro inp
  have h1 : addNewStep (winState 100) inp.newSymbol = winState 100 :=
    addNewStep_winState_cap _
  simp [loopStep, h1, displaySequence_winState_100,
    show (winState 100).gameOver = false from rfl]

/-- C10: leftover gameSequence contents are unobservable: two post-reset
states that agree on everything except the array contents produce, under
the same random draws and the same input traces, identical observation
sequences (presentation requests, round verdicts, EEPROM writes), and the
runs stay related (in particular both end with equal high scores). -/
theorem c10_leftover_unobservable (s t : GameState)
    (hhs : s.highScore = t.highScore) (hee : s.eeprom = t.eeprom)
    (hls : s.gameSequence.length = MAX_LEVEL)
    (hlt : t.gameSequence.length = MAX_LEVEL) (inps : List RoundInput) :
    (runGame (resetGame s) inps).1 = (runGame (resetGame t) inps).1 ∧
    OptInv (runGame (resetGame s) inps).2 (runGame (resetGame t) inps).2 := by
  apply runGame_agree
  refine ⟨⟨by simp, by simp [hhs], by simp, by simp, by simp [hee]⟩,
    by simp [hls], by simp [hlt], ?_⟩
  intro j hj
  simp at hj

/-- A state whose array holds leftover 3s everywhere, otherwise like a
fresh state with EEPROM byte 0 (used to witness C10). -/
def leftoverState : GameState :=
  { gameSequence := List.replicate 100 3
    currentLevel := 0
    highScore := 0
    currentSpeed := 1000
    gameOver := false
    eeprom := 0 }

/-- Witness for C10: a zeroed array versus an array full of 3s, one winning
round each: same observations. -/
theorem c10_leftover_unobservable_witness :
    (runGame (resetGame (initState 0)) [winInput]).1 =
      (runGame (resetGame leftoverState) [winInput]).1 ∧
    OptInv (runGame (resetGame (initState 0)) [winInput]).2
      (runGame (resetGame leftoverState) [winInput]).2 :=
  c10_leftover_unobservable (initState 0) leftoverState rfl rfl
    (by simp [initState]) (by simp [leftoverState, MAX_LEVEL]) [winInput]

end Simon
